import Mathlib

/-!
Verification of the SerialConsole command dispatcher (SerialConsole.h): a
shallow embedding of its token conversion traits, the recursive argument
executor, the command registry, and the line reader, together with theorems
about the behaviour of each.

Conventions of the embedding:
  * buffers and tokens are `List Char`; a C string is its bytes up to the
    first NUL (`cString`);
  * printed lines and handler invocations are `Event`s, in order;
  * a handler's type-erased function pointer is represented by the
    parameter-kind sequence its registration-time invoker closed over, and
    calling it is the event `Event.call name args`;
  * machine integers are `Int` (the `long` range is clamped as `strtol`
    does on overflow); floating point values are exact rationals, since no
    property proved here depends on binary rounding.
-/

set_option maxRecDepth 8000

namespace SerialConsole

/-- The C `isspace` character class. -/
def isspaceC (c : Char) : Bool :=
  c = ' ' || c = '\t' || c = '\n' || c = '\x0b' || c = '\x0c' || c = '\r'

/-- Numeric value of a digit character, for bases up to 16. -/
def digitVal (c : Char) : Option Nat :=
  if '0' ≤ c ∧ c ≤ '9' then some (c.toNat - '0'.toNat)
  else if 'a' ≤ c ∧ c ≤ 'f' then some (c.toNat - 'a'.toNat + 10)
  else if 'A' ≤ c ∧ c ≤ 'F' then some (c.toNat - 'A'.toNat + 10)
  else none

/-- Whether `c` is a digit of base `b`. -/
def isBaseDigit (b : Nat) (c : Char) : Bool :=
  match digitVal c with
  | some v => decide (v < b)
  | none => false

/-- The value of a digit string in base `b`. -/
def digitsVal (b : Nat) (ds : List Char) : Nat :=
  ds.foldl (fun a c => a * b + ((digitVal c).getD 0)) 0

/-- LONG_MIN of the Arduino targets (long is 32-bit). -/
def LONG_MIN : Int := -(2 ^ 31)

/-- LONG_MAX of the Arduino targets (long is 32-bit). -/
def LONG_MAX : Int := 2 ^ 31 - 1

/-- What strtol returns on overflow: the value clamped to the long range. -/
def clampLong (v : Int) : Int := max LONG_MIN (min LONG_MAX v)

/-- Whether a character list starts with a hexadecimal digit. -/
def headIsHexDigit : List Char → Bool
  | d :: _ => isBaseDigit 16 d
  | [] => false

/-- The C call strtol(str, &end, 0) on a character list: the parsed value and
the number of characters consumed (end - str, with 0 modelling end == str,
no conversion performed). Base 0 auto-detects hex (0x/0X with at least one
hex digit), octal (leading 0) or decimal, after optional whitespace and an
optional sign; overflow clamps to the long range. -/
def strtolRun (s : List Char) : Int × Nat :=
  let nws := (s.takeWhile isspaceC).length
  let s1 := s.drop nws
  let sgn : Int := match s1 with | '-' :: _ => -1 | _ => 1
  let nsgn : Nat := match s1 with | '-' :: _ => 1 | '+' :: _ => 1 | _ => 0
  let s2 := s1.drop nsgn
  match s2 with
  | '0' :: c :: rest =>
    if (c = 'x' ∨ c = 'X') ∧ headIsHexDigit rest = true then
      let ds := rest.takeWhile (isBaseDigit 16)
      (clampLong (sgn * (digitsVal 16 ds : Int)), nws + nsgn + 2 + ds.length)
    else
      let ds := ('0' :: c :: rest).takeWhile (isBaseDigit 8)
      (clampLong (sgn * (digitsVal 8 ds : Int)), nws + nsgn + ds.length)
  | ['0'] => (0, nws + nsgn + 1)
  | _ =>
    let ds := s2.takeWhile (isBaseDigit 10)
    if ds.isEmpty then (0, 0)
    else (clampLong (sgn * (digitsVal 10 ds : Int)), nws + nsgn + ds.length)

/-- The C call strtod(str, &end) on a character list, decimal forms: optional
whitespace, optional sign, digits with an optional fraction part, and an
optional e/E exponent (only consumed when at least one exponent digit
follows). Returns the exact value as a rational and the number of characters
consumed; 0 consumed models end == str. The host parser additionally accepts
hex/inf/nan spellings and rounds the result to binary floating point;
neither affects the whole-token success rule under proof here. -/
def strtodRun (s : List Char) : Rat × Nat :=
  let nws := (s.takeWhile isspaceC).length
  let s1 := s.drop nws
  let sgn : Int := match s1 with | '-' :: _ => -1 | _ => 1
  let nsgn : Nat := match s1 with | '-' :: _ => 1 | '+' :: _ => 1 | _ => 0
  let s2 := s1.drop nsgn
  let ipart := s2.takeWhile (isBaseDigit 10)
  let s3 := s2.drop ipart.length
  let fpart : List Char := match s3 with
    | '.' :: r => r.takeWhile (isBaseDigit 10)
    | _ => []
  let nfrac : Nat := match s3 with
    | '.' :: _ => 1 + fpart.length
    | _ => 0
  if ipart.isEmpty ∧ fpart.isEmpty then
    (0, 0)
  else
    let s4 := s3.drop nfrac
    let ev : Int × Nat :=
      match s4 with
      | e :: r =>
        if e = 'e' ∨ e = 'E' then
          let ensgn : Nat := match r with | '+' :: _ => 1 | '-' :: _ => 1 | _ => 0
          let esgn : Int := match r with | '-' :: _ => -1 | _ => 1
          let eds := (r.drop ensgn).takeWhile (isBaseDigit 10)
          if eds.isEmpty then (0, 0)
          else (esgn * (digitsVal 10 eds : Int), 1 + ensgn + eds.length)
        else (0, 0)
      | [] => (0, 0)
    let mant : Int := sgn * (digitsVal 10 (ipart ++ fpart) : Int)
    let e10 : Int := ev.1 - (fpart.length : Int)
    let q : Rat :=
      if 0 ≤ e10 then ((mant * (((10 : Nat) ^ e10.toNat : Nat) : Int) : Int) : Rat)
      else mkRat mant ((10 : Nat) ^ (-e10).toNat)
    (q, nws + nsgn + ipart.length + nfrac + ev.2)

/-- ArgTraits of int (SerialConsole.h:33-39): out = strtol(str, &end, 0);
success is str != end && *end == the terminator, that is: a nonzero number of
characters consumed and the whole token consumed. The long result's
conversion to the platform int is the identity for in-range values; every
property proved here concerns which tokens succeed, and the value for small
inputs. -/
def ArgTraits_int_parse (tok : List Char) : Option Int :=
  if (strtolRun tok).2 ≠ 0 ∧ (strtolRun tok).2 = tok.length then
    some (strtolRun tok).1
  else none

/-- ArgTraits of long (SerialConsole.h:41-47): same body as the int trait. -/
def ArgTraits_long_parse (tok : List Char) : Option Int :=
  if (strtolRun tok).2 ≠ 0 ∧ (strtolRun tok).2 = tok.length then
    some (strtolRun tok).1
  else none

/-- ArgTraits of float (SerialConsole.h:49-55): out = strtod(str, &end) with
the same whole-token success rule. -/
def ArgTraits_float_parse (tok : List Char) : Option Rat :=
  if (strtodRun tok).2 ≠ 0 ∧ (strtodRun tok).2 = tok.length then
    some (strtodRun tok).1
  else none

/-- ArgTraits of double (SerialConsole.h:57-63): same body as the float
trait. NOTE the source declares its output parameter as float &out, not
double &out (SerialConsole.h:58), so the trait for double produces its value
in a float, and a double-typed local cannot even bind to it. -/
def ArgTraits_double_parse (tok : List Char) : Option Rat :=
  if (strtodRun tok).2 ≠ 0 ∧ (strtodRun tok).2 = tok.length then
    some (strtodRun tok).1
  else none

/-- The parameter kinds ArgTraits is specialized at (SerialConsole.h:31-77). -/
inductive ArgKind where
  | kInt
  | kLong
  | kFloat
  | kDouble
  | kCharPtr
  | kConstCharPtr
  deriving DecidableEq

/-- A typed argument value, tagged with the C carrier type the trait's output
parameter stores it in. Text values are the token itself (the trait aliases
the token pointer, it makes no copy). -/
inductive Value where
  | vInt (n : Int)
  | vLong (n : Int)
  | vFloat (q : Rat)
  | vDouble (q : Rat)
  | vText (s : List Char)
  deriving DecidableEq

/-- One ArgTraits parse call as the Executor dispatches it, the value tagged
with the carrier type of the trait's output parameter. For the double kind
the source's output parameter is a float (SerialConsole.h:58), so the parsed
value is produced as a float, not a double. The two text kinds always
succeed with the token itself. -/
def parseArg : ArgKind → List Char → Option Value
  | .kInt, t => (ArgTraits_int_parse t).map Value.vInt
  | .kLong, t => (ArgTraits_long_parse t).map Value.vLong
  | .kFloat, t => (ArgTraits_float_parse t).map Value.vFloat
  | .kDouble, t => (ArgTraits_double_parse t).map Value.vFloat
  | .kCharPtr, t => some (Value.vText t)
  | .kConstCharPtr, t => some (Value.vText t)

/-- The usage string as printed: usage ? usage : "" (null prints empty). -/
def usageStr (u : Option String) : String := u.getD ""

/-- The line the Executor prints when a token is missing
(SerialConsole.h:91-97). -/
def missingMsg (name : String) (u : Option String) : String :=
  "Err: Missing argument. Usage: " ++ name ++ " " ++ usageStr u

/-- The line the Executor prints when a token fails to convert
(SerialConsole.h:101-109). -/
def invalidMsg (tok : List Char) (name : String) (u : Option String) : String :=
  "Err: Invalid argument '" ++ String.mk tok ++ "'. Usage: " ++ name ++ " " ++ usageStr u

/-- The line handleInput prints when no command matches
(SerialConsole.h:182). -/
def unknownMsg : String := "Unknown command. Type 'help' for list of commands."

/-- One observable effect of the console: a printed line, or the handler of
the named command being invoked with a list of typed values. -/
inductive Event where
  | out (line : String)
  | call (cmdName : String) (args : List Value)
  deriving DecidableEq

/-- One slot of the command table, struct Command (SerialConsole.h:18-23):
the type-erased func pointer together with its registration-time invoker is
represented by the parameter-kind sequence the invoker closed over. -/
structure Cmd where
  name : String
  usage : Option String
  params : List ArgKind
  deriving DecidableEq

/-- The recursive Executor (SerialConsole.h:80-125): one step per remaining
parameter kind, pulling one token per step; no token left prints the
missing-argument line, a failed conversion prints the invalid-argument line,
and the base case fires the handler with the collected values, leftover
tokens ignored. -/
def Executor.run : List ArgKind → String → Option String → List (List Char) → List Value → List Event
  | [], name, _, _, collected => [Event.call name collected]
  | _ :: _, name, u, [], _ => [Event.out (missingMsg name u)]
  | k :: rest, name, u, t :: ts, collected =>
    match parseArg k t with
    | none => [Event.out (invalidMsg t name u)]
    | some v => Executor.run rest name u ts (collected ++ [v])

/-- Conversion of a token list against an equally long parameter-kind list:
some of the converted values, in order, exactly when every token converts. -/
def parseAllExact : List ArgKind → List (List Char) → Option (List Value)
  | [], [] => some []
  | [], _ :: _ => none
  | _ :: _, [] => none
  | k :: ks, t :: ts =>
    match parseArg k t, parseAllExact ks ts with
    | some v, some vs => some (v :: vs)
    | _, _ => none

/-- Helper for tokenization: the accumulator holds the current token
reversed. -/
def tokenizeGo : List Char → List Char → List (List Char)
  | acc, [] => if acc.isEmpty then [] else [acc.reverse]
  | acc, c :: rest =>
    if c = ' ' then
      if acc.isEmpty then tokenizeGo [] rest
      else acc.reverse :: tokenizeGo [] rest
    else tokenizeGo (c :: acc) rest

/-- The token sequence strtok(buf, " ") / strtok(NULL, " ") yields on a
buffer: the maximal runs of non-space characters, in order. -/
def tokenizeL (l : List Char) : List (List Char) := tokenizeGo [] l

/-- The C string a character buffer holds: its bytes up to the first NUL. -/
def cString (l : List Char) : List Char := l.takeWhile (fun c => decide (c ≠ '\x00'))

/-- The command lookup loop of handleInput (SerialConsole.h:175-181): linear
scan in registration order, the first slot whose name compares equal wins,
none when the loop falls through. -/
def lookup : List Cmd → String → Option Cmd
  | [], _ => none
  | c :: rest, nm => if c.name = nm then some c else lookup rest nm

/-- One line of printHelp (SerialConsole.h:200-210): two spaces, the name,
and when the usage pointer is non-null a space and the usage string. -/
def helpLine (c : Cmd) : String :=
  "  " ++ c.name ++ (match c.usage with | some u => " " ++ u | none => "")

/-- printHelp (SerialConsole.h:200-210): one line per table slot, in order. -/
def printHelp (cmds : List Cmd) : List Event :=
  cmds.map (fun c => Event.out (helpLine c))

/-- handleInput after a successful readInputLine (SerialConsole.h:163-183):
echo the buffer, take the first token (returning after the echo when there
is none), route to printHelp when it is the literal "help", otherwise to
the first matching slot's invoker or the unknown-command line. Every C
string function sees the buffer only up to its first NUL byte. -/
def handleLine (cmds : List Cmd) (buf : List Char) : List Event :=
  Event.out ("> " ++ String.mk (cString buf)) ::
    match tokenizeL (cString buf) with
    | [] => []
    | tok :: rest =>
      if String.mk tok = "help" then printHelp cmds
      else
        match lookup cmds (String.mk tok) with
        | some c => Executor.run c.params c.name c.usage rest []
        | none => [Event.out unknownMsg]

/-- Capacity of the input line buffer (SerialConsole.h:11). -/
def INPUT_BUF_SIZE : Nat := 64

/-- The right-trim loop of readInputLine (SerialConsole.h:195-196): drop
trailing isspace bytes. -/
def rtrim (l : List Char) : List Char :=
  (l.reverse.dropWhile isspaceC).reverse

/-- readInputLine (SerialConsole.h:190-198) on the pending stream bytes:
none models returning false. readBytesUntil stores up to INPUT_BUF_SIZE - 1
bytes, stopping before a newline; trailing whitespace is stripped; the read
succeeds when at least one byte remains. -/
def readInputLine (stream : List Char) : Option (List Char) :=
  if stream.isEmpty then none
  else
    let raw := (stream.takeWhile (fun c => decide (c ≠ '\n'))).take (INPUT_BUF_SIZE - 1)
    let trimmed := rtrim raw
    if trimmed.isEmpty then none else some trimmed

/-- One handleInput call (SerialConsole.h:159-183) on the bytes pending in
the stream: nothing happens unless a full line is read. -/
def handleInput (cmds : List Cmd) (stream : List Char) : List Event :=
  match readInputLine stream with
  | none => []
  | some buf => handleLine cmds buf

/-- The registration chain initArgs (SerialConsole.h:137-156) over the
triples (name, handler, usage), a handler represented by the parameter-kind
sequence its bound invoker closes over: each step binds slot i of the
fixed-size table _commands (whose length is the capacity N_CMDS) unless i is
out of range, in which case it returns at once, changing nothing and
reporting nothing. -/
def initArgs (cmds : List Cmd) (i : Nat) : List Cmd → List Cmd
  | [] => cmds
  | e :: rest =>
    if cmds.length ≤ i then cmds
    else initArgs (cmds.set i e) (i + 1) rest

/-- Whether the buffer's last byte exists and is not whitespace. -/
def lastNotSpace (l : List Char) : Bool :=
  match l.getLast? with
  | some c => !isspaceC c
  | none => false

/-- A registry and inputs used to instantiate the theorems below at concrete
values: a one-long-parameter command followed by a two-int-parameter one. -/
def demoReg : List Cmd :=
  [⟨"mul", some "<x>", [ArgKind.kLong]⟩, ⟨"add", some "<a> <b>", [ArgKind.kInt, ArgKind.kInt]⟩]

/-- Unrolling the Executor over an already-converted prefix: when the first
parameter kinds and the first tokens convert pairwise, the run continues on
the remaining kinds and tokens with the converted values appended to the
accumulator. -/
theorem Executor.run_append (name : String) (u : Option String) :
    ∀ (kpre : List ArgKind) (pre : List (List Char)) (vals : List Value)
      (krest : List ArgKind) (ts : List (List Char)) (acc : List Value),
      parseAllExact kpre pre = some vals →
      Executor.run (kpre ++ krest) name u (pre ++ ts) acc =
        Executor.run krest name u ts (acc ++ vals) := by
  intro kpre
  induction kpre with
  | nil =>
    intro pre vals krest ts acc hp
    cases pre with
    | nil =>
      simp only [parseAllExact, Option.some.injEq] at hp
      subst hp
      simp
    | cons t ts2 => simp [parseAllExact] at hp
  | cons k ks ih =>
    intro pre vals krest ts acc hp
    cases pre with
    | nil => simp [parseAllExact] at hp
    | cons t pre2 =>
      cases hv : parseArg k t with
      | none => simp [parseAllExact, hv] at hp
      | some v =>
        cases hvs : parseAllExact ks pre2 with
        | none => simp [parseAllExact, hv, hvs] at hp
        | some vs =>
          have hvals : vals = v :: vs := by
            simp only [parseAllExact, hv, hvs, Option.some.injEq] at hp
            exact hp.symm
          subst hvals
          have hstep : Executor.run ((k :: ks) ++ krest) name u ((t :: pre2) ++ ts) acc =
              Executor.run (ks ++ krest) name u (pre2 ++ ts) (acc ++ [v]) := by
            simp [Executor.run, hv]
          rw [hstep, ih pre2 vs krest ts (acc ++ [v]) hvs]
          simp

/-- C1: when the first N tokens of the line all convert for a command's N
declared parameter kinds, the Executor fires the handler exactly once, with
exactly the N converted values in declaration order, and any tokens beyond
the N-th are ignored (in particular a zero-parameter handler is still called
exactly once when extra tokens are present). -/
theorem executor_calls_handler_once (params : List ArgKind) (name : String)
    (u : Option String) (tokens : List (List Char)) (vals : List Value)
    (hp : parseAllExact params (tokens.take params.length) = some vals) :
    Executor.run params name u tokens [] = [Event.call name vals] := by
  have hsplit : tokens.take params.length ++ tokens.drop params.length = tokens :=
    List.take_append_drop _ _
  have h1 : Executor.run (params ++ []) name u
      (tokens.take params.length ++ tokens.drop params.length) [] =
      Executor.run [] name u (tokens.drop params.length) ([] ++ vals) :=
    Executor.run_append name u params (tokens.take params.length) vals []
      (tokens.drop params.length) [] hp
  rw [List.append_nil, hsplit] at h1
  rw [h1]
  simp [Executor.run]

/-- Witness for C1: dispatching the registered command add with tokens
3, 4 and a trailing extra token calls the handler once with (3, 4). -/
theorem executor_calls_handler_once_witness :
    Executor.run [ArgKind.kInt, ArgKind.kInt] "add" (some "<a> <b>")
      [("3").data, ("4").data, ("junk").data] [] =
      [Event.call "add" [Value.vInt 3, Value.vInt 4]] :=
  executor_calls_handler_once [ArgKind.kInt, ArgKind.kInt] "add" (some "<a> <b>")
    [("3").data, ("4").data, ("junk").data] [Value.vInt 3, Value.vInt 4] (by decide)

/-- C2: when the token supply runs out before the declared parameters do
(every supplied token converting for its parameter kind), the Executor
prints exactly the missing-argument diagnostic with the command's name and
usage string, and the handler is not invoked; no further parameter is
processed. -/
theorem executor_missing_argument (params : List ArgKind) (name : String)
    (u : Option String) (tokens : List (List Char)) (vals : List Value)
    (hshort : tokens.length < params.length)
    (hp : parseAllExact (params.take tokens.length) tokens = some vals) :
    Executor.run params name u tokens [] = [Event.out (missingMsg name u)] := by
  have hsplit : params.take tokens.length ++ params.drop tokens.length = params :=
    List.take_append_drop _ _
  have htok : tokens ++ ([] : List (List Char)) = tokens := List.append_nil tokens
  have h1 : Executor.run (params.take tokens.length ++ params.drop tokens.length) name u
      (tokens ++ []) [] =
      Executor.run (params.drop tokens.length) name u [] ([] ++ vals) :=
    Executor.run_append name u (params.take tokens.length) tokens vals
      (params.drop tokens.length) [] [] hp
  rw [hsplit, htok] at h1
  rw [h1]
  have hne : params.drop tokens.length ≠ [] := by
    intro h
    have hlen : (params.drop tokens.length).length = 0 := by rw [h]; rfl
    rw [List.length_drop] at hlen
    omega
  obtain ⟨k, krest, hk⟩ := List.exists_cons_of_ne_nil hne
  rw [hk]
  simp [Executor.run]

/-- Witness for C2: the registered command add, given only the token 3,
prints exactly the missing-argument line and makes no call. -/
theorem executor_missing_argument_witness :
    Executor.run [ArgKind.kInt, ArgKind.kInt] "add" (some "<a> <b>") [("3").data] [] =
      [Event.out "Err: Missing argument. Usage: add <a> <b>"] :=
  executor_missing_argument [ArgKind.kInt, ArgKind.kInt] "add" (some "<a> <b>")
    [("3").data] [Value.vInt 3] (by decide) (by decide)

/-- C3: when a token fails to convert for the current parameter kind (all
earlier tokens having converted), the Executor prints exactly the
invalid-argument diagnostic quoting that token, and the handler is not
invoked for that line. -/
theorem executor_invalid_argument (kpre krest : List ArgKind) (k : ArgKind)
    (pre ts : List (List Char)) (t : List Char) (name : String) (u : Option String)
    (vals : List Value)
    (hp : parseAllExact kpre pre = some vals)
    (hf : parseArg k t = none) :
    Executor.run (kpre ++ k :: krest) name u (pre ++ t :: ts) [] =
      [Event.out (invalidMsg t name u)] := by
  rw [Executor.run_append name u kpre pre vals (k :: krest) (t :: ts) [] hp]
  simp [Executor.run, hf]

/-- Witness for C3: the registered command add on the line add x 4 prints
exactly the invalid-argument line quoting x, and makes no call. -/
theorem executor_invalid_argument_witness :
    Executor.run [ArgKind.kInt, ArgKind.kInt] "add" (some "<a> <b>")
      [("x").data, ("4").data] [] =
      [Event.out "Err: Invalid argument 'x'. Usage: add <a> <b>"] :=
  executor_invalid_argument [] [ArgKind.kInt] ArgKind.kInt [] [("4").data]
    (("x").data) "add" (some "<a> <b>") [] (by decide) (by decide)

/-- C4: for the integer kinds (int and long) conversion succeeds exactly
when strtol with base auto-detection consumes at least one character and
consumes the whole token; trailing garbage such as 12abc fails rather than
parsing partially, while signed, hex-prefixed and octal-prefixed numerals
succeed. -/
theorem argtraits_integer_whole_token :
    (∀ tok : List Char, (ArgTraits_int_parse tok).isSome ↔
        ((strtolRun tok).2 ≠ 0 ∧ (strtolRun tok).2 = tok.length)) ∧
    (∀ tok : List Char, (ArgTraits_long_parse tok).isSome ↔
        ((strtolRun tok).2 ≠ 0 ∧ (strtolRun tok).2 = tok.length)) ∧
    ArgTraits_int_parse (("12abc").data) = none ∧
    ArgTraits_long_parse (("12abc").data) = none ∧
    ArgTraits_int_parse (("12").data) = some 12 ∧
    ArgTraits_int_parse (("+12").data) = some 12 ∧
    ArgTraits_int_parse (("-5").data) = some (-5) ∧
    ArgTraits_int_parse (("0x1A").data) = some 26 ∧
    ArgTraits_long_parse (("017").data) = some 15 ∧
    ArgTraits_int_parse (("").data) = none := by
  refine ⟨?_, ?_, by decide, by decide, by decide, by decide, by decide, by decide,
    by decide, by decide⟩
  · intro tok
    by_cases h : (strtolRun tok).2 ≠ 0 ∧ (strtolRun tok).2 = tok.length
    · simp [ArgTraits_int_parse, h]
    · simp [ArgTraits_int_parse, h]
  · intro tok
    by_cases h : (strtolRun tok).2 ≠ 0 ∧ (strtolRun tok).2 = tok.length
    · simp [ArgTraits_long_parse, h]
    · simp [ArgTraits_long_parse, h]

/-- C5 (the code diverges from it at the double kind): the float trait uses
strtod and succeeds exactly when at least one character and the whole token
are consumed, yielding the parsed value as a float; the double trait has the
same success rule but its output parameter is declared float &out
(SerialConsole.h:58), so its parsed value is produced in a float carrier,
not in the declared parameter type double — here 1.5 parsed for a double
parameter comes back as the float value 3/2 (mkRat 3 2). -/
theorem argtraits_double_writes_float :
    parseArg ArgKind.kDouble (("1.5").data) = some (Value.vFloat (mkRat 3 2)) ∧
    (∀ tok : List Char, (ArgTraits_float_parse tok).isSome ↔
        ((strtodRun tok).2 ≠ 0 ∧ (strtodRun tok).2 = tok.length)) ∧
    (∀ tok : List Char, (ArgTraits_double_parse tok).isSome ↔
        ((strtodRun tok).2 ≠ 0 ∧ (strtodRun tok).2 = tok.length)) ∧
    ArgTraits_float_parse (("1.5e2").data) = some (mkRat 150 1) ∧
    ArgTraits_float_parse (("1.5x").data) = none ∧
    ArgTraits_float_parse (("").data) = none := by
  refine ⟨by decide, ?_, ?_, by decide, by decide, by decide⟩
  · intro tok
    by_cases h : (strtodRun tok).2 ≠ 0 ∧ (strtodRun tok).2 = tok.length
    · simp [ArgTraits_float_parse, h]
    · simp [ArgTraits_float_parse, h]
  · intro tok
    by_cases h : (strtodRun tok).2 ≠ 0 ∧ (strtodRun tok).2 = tok.length
    · simp [ArgTraits_double_parse, h]
    · simp [ArgTraits_double_parse, h]

/-- C6: conversion for the text kinds (char pointer and const char pointer)
always succeeds, whatever the token holds, and the value is the token
itself — the same character sequence, aliasing the input buffer rather than
a copy. -/
theorem argtraits_text_identity :
    ∀ tok : List Char,
      parseArg ArgKind.kCharPtr tok = some (Value.vText tok) ∧
      parseArg ArgKind.kConstCharPtr tok = some (Value.vText tok) := by
  intro tok
  exact ⟨rfl, rfl⟩

/-- C9: a registration step whose slot index is at or beyond the table's
capacity returns at once: nothing is printed (the registration chain has no
output channel at all) and every slot of the registry keeps exactly the
contents — name, usage, handler, invoker — it had before the call. -/
theorem initArgs_overflow_noop (cmds : List Cmd) (i : Nat) (entries : List Cmd)
    (h : cmds.length ≤ i) : initArgs cmds i entries = cmds := by
  cases entries with
  | nil => rfl
  | cons e rest => simp [initArgs, h]

/-- Witness for C9: registering a third command into the full two-slot
demo registry leaves the registry exactly as it was. -/
theorem initArgs_overflow_noop_witness :
    initArgs demoReg 2 [⟨"extra", none, []⟩] = demoReg :=
  initArgs_overflow_noop demoReg 2 [⟨"extra", none, []⟩] (by decide)

/-- The lookup loop falls through when no slot's name matches. -/
theorem lookup_none (cmds : List Cmd) (nm : String)
    (h : ∀ c ∈ cmds, c.name ≠ nm) : lookup cmds nm = none := by
  induction cmds with
  | nil => rfl
  | cons c rest ih =>
    have hc : c.name ≠ nm := h c (List.mem_cons_self c rest)
    simp only [lookup]
    rw [if_neg hc]
    exact ih (fun d hd => h d (List.mem_cons_of_mem c hd))

/-- The lookup loop returns the first slot, in registration order, whose
name matches. -/
theorem lookup_first (cmds : List Cmd) (nm : String) :
    ∀ i (hi : i < cmds.length), cmds[i].name = nm →
      (∀ j (hj : j < i), cmds[j].name ≠ nm) →
      lookup cmds nm = some cmds[i] := by
  induction cmds with
  | nil => intro i hi; simp at hi
  | cons c rest ih =>
    intro i hi hname hfirst
    cases i with
    | zero =>
      simp only [List.getElem_cons_zero] at hname ⊢
      simp [lookup, hname]
    | succ i2 =>
      have hc : c.name ≠ nm := by
        have h0 := hfirst 0 (Nat.succ_pos i2)
        simpa using h0
      simp only [lookup]
      rw [if_neg hc, List.getElem_cons_succ]
      have hi2 : i2 < rest.length := by
        have := hi
        simp only [List.length_cons] at this
        omega
      have hname2 : rest[i2].name = nm := by
        simpa using hname
      have hfirst2 : ∀ j (hj : j < i2), rest[j].name ≠ nm := by
        intro j hj
        have := hfirst (j + 1) (Nat.succ_lt_succ hj)
        simpa using this
      exact ih i2 hi2 hname2 hfirst2

/-- C7: on a line whose first token is not the help keyword, dispatch scans
the registry linearly in registration order with exact case-sensitive
comparison: when no slot matches, exactly the unknown-command diagnostic is
printed (after the input echo) and no handler is invoked; when slot i is the
first match, that slot's invoker runs on the remaining tokens and the scan
stops there. -/
theorem handleLine_dispatch (cmds : List Cmd) (buf : List Char) (tok : List Char)
    (rest : List (List Char))
    (htok : tokenizeL (cString buf) = tok :: rest)
    (hhelp : String.mk tok ≠ "help") :
    ((∀ c ∈ cmds, c.name ≠ String.mk tok) →
      handleLine cmds buf =
        [Event.out ("> " ++ String.mk (cString buf)), Event.out unknownMsg]) ∧
    (∀ i (hi : i < cmds.length), cmds[i].name = String.mk tok →
      (∀ j (hj : j < i), cmds[j].name ≠ String.mk tok) →
      handleLine cmds buf =
        Event.out ("> " ++ String.mk (cString buf)) ::
          Executor.run cmds[i].params cmds[i].name cmds[i].usage rest []) := by
  constructor
  · intro hnone
    simp only [handleLine, htok]
    rw [if_neg hhelp, lookup_none cmds (String.mk tok) hnone]
  · intro i hi hname hfirst
    simp only [handleLine, htok]
    rw [if_neg hhelp, lookup_first cmds (String.mk tok) i hi hname hfirst]

/-- Witness for C7: in the two-command demo registry, the unregistered line
frobnicate prints exactly the unknown-command diagnostic after the echo, and
the line add 3 4 dispatches to the second slot's invoker with the remaining
tokens. -/
theorem handleLine_dispatch_witness :
    handleLine demoReg (("frobnicate").data) =
      [Event.out "> frobnicate", Event.out unknownMsg] ∧
    handleLine demoReg (("add 3 4").data) =
      Event.out "> add 3 4" ::
        Executor.run [ArgKind.kInt, ArgKind.kInt] "add" (some "<a> <b>")
          [("3").data, ("4").data] [] := by
  constructor
  · exact (handleLine_dispatch demoReg (("frobnicate").data) (("frobnicate").data) []
      (by decide) (by decide)).1 (by decide)
  · exact (handleLine_dispatch demoReg (("add 3 4").data) (("add").data)
      [("3").data, ("4").data] (by decide) (by decide)).2 1 (by decide) (by decide)
      (by
        intro j hj
        have hj0 : j = 0 := by omega
        subst hj0
        show ("mul" : String) ≠ String.mk (("add").data)
        decide)

/-- A registry holding a command literally named help, to show that slot is
unreachable by dispatch. -/
def helpReg : List Cmd :=
  [⟨"help", some "bogus", []⟩, ⟨"add", some "<a> <b>", [ArgKind.kInt, ArgKind.kInt]⟩]

/-- C8: on a line whose first token is the literal help, the console prints
one line per registered slot — its name and usage string, in registration
order — and dispatches to no registered command: no handler call happens for
any registry, even one containing a command named help, because the help
check precedes the registry scan. -/
theorem handleLine_help (cmds : List Cmd) (buf : List Char) (rest : List (List Char))
    (htok : tokenizeL (cString buf) = ("help").data :: rest) :
    handleLine cmds buf =
      Event.out ("> " ++ String.mk (cString buf)) ::
        cmds.map (fun c => Event.out (helpLine c)) ∧
    ∀ nm args, Event.call nm args ∉ handleLine cmds buf := by
  have h1 : handleLine cmds buf =
      Event.out ("> " ++ String.mk (cString buf)) ::
        cmds.map (fun c => Event.out (helpLine c)) := by
    simp only [handleLine, htok]
    rw [if_pos True.intro]
    rfl
  refine ⟨h1, ?_⟩
  intro nm args hmem
  rw [h1] at hmem
  simp only [List.mem_cons, List.mem_map] at hmem
  rcases hmem with h | ⟨c, _, h⟩ <;> exact Event.noConfusion h

/-- Witness for C8: with a registry whose first slot is itself named help,
the line help prints the help listing (that slot included) and performs no
dispatch. -/
theorem handleLine_help_witness :
    handleLine helpReg (("help").data) =
      Event.out "> help" :: helpReg.map (fun c => Event.out (helpLine c)) :=
  (handleLine_help helpReg (("help").data) [] (by decide)).1

/-- The first element of a dropWhile result does not satisfy the dropped
predicate. -/
theorem dropWhile_head_not (p : Char → Bool) :
    ∀ (l : List Char) (c : Char), (l.dropWhile p).head? = some c → p c = false := by
  intro l
  induction l with
  | nil => intro c h; simp [List.dropWhile] at h
  | cons a rest ih =>
    intro c h
    by_cases ha : p a = true
    · rw [List.dropWhile_cons_of_pos ha] at h
      exact ih c h
    · rw [List.dropWhile_cons_of_neg ha] at h
      simp only [List.head?_cons, Option.some.injEq] at h
      subst h
      exact Bool.not_eq_true _ |>.mp ha

/-- dropWhile never lengthens a list. -/
theorem length_dropWhile_le_self (p : Char → Bool) :
    ∀ l : List Char, (l.dropWhile p).length ≤ l.length := by
  intro l
  induction l with
  | nil => simp [List.dropWhile]
  | cons a rest ih =>
    by_cases ha : p a = true
    · rw [List.dropWhile_cons_of_pos ha]
      exact Nat.le_succ_of_le ih
    · rw [List.dropWhile_cons_of_neg ha]

/-- A right-trimmed buffer, unless empty, ends in a non-whitespace byte. -/
theorem rtrim_lastNotSpace (l : List Char) (h : rtrim l ≠ []) :
    lastNotSpace (rtrim l) = true := by
  unfold lastNotSpace
  cases hlast : (rtrim l).getLast? with
  | none =>
    exfalso
    exact h (List.getLast?_eq_none_iff.mp hlast)
  | some c =>
    have hh : (l.reverse.dropWhile isspaceC).head? = some c := by
      have := hlast
      unfold rtrim at this
      rwa [List.getLast?_reverse] at this
    have hns : isspaceC c = false := dropWhile_head_not isspaceC l.reverse c hh
    simp [hns]

/-- Tokenizing any buffer holding at least one non-space byte (or continuing
a token already begun) yields at least one token. -/
theorem tokenizeGo_ne_nil :
    ∀ (l acc : List Char), (acc ≠ [] ∨ ∃ c ∈ l, c ≠ ' ') → tokenizeGo acc l ≠ [] := by
  intro l
  induction l with
  | nil =>
    intro acc h
    cases h with
    | inl ha =>
      simp only [tokenizeGo]
      rw [if_neg (by simpa using ha)]
      simp
    | inr he =>
      obtain ⟨c, hc, _⟩ := he
      simp at hc
  | cons a rest ih =>
    intro acc h
    by_cases ha : a = ' '
    · subst ha
      simp only [tokenizeGo]
      rw [if_pos True.intro]
      by_cases hacc : acc.isEmpty
      · rw [if_pos hacc]
        refine ih [] (Or.inr ?_)
        cases h with
        | inl hne => exact absurd (List.isEmpty_iff.mp hacc) hne
        | inr he =>
          obtain ⟨c, hc, hne⟩ := he
          rcases List.mem_cons.mp hc with hc0 | hcr
          · exact absurd hc0 hne
          · exact ⟨c, hcr, hne⟩
      · rw [if_neg hacc]
        simp
    · simp only [tokenizeGo]
      rw [if_neg ha]
      exact ih (a :: acc) (Or.inl (by simp))

/-- A NUL-free buffer is its own C string. -/
theorem cString_of_no_nul :
    ∀ l : List Char, ('\x00') ∉ l → cString l = l := by
  intro l
  induction l with
  | nil => intro _; rfl
  | cons a rest ih =>
    intro h
    have ha : a ≠ '\x00' := fun he => h (he ▸ List.mem_cons_self a rest)
    unfold cString at ih ⊢
    rw [List.takeWhile_cons, if_pos (by simpa using ha)]
    rw [ih (fun hm => h (List.mem_cons_of_mem a hm))]

/-- C10 amended: for a byte stream whose stored line bytes contain no NUL, a
successful read leaves the buffer holding a string of at most
INPUT_BUF_SIZE - 1 characters, non-empty, whose last character is not
whitespace, equal to its own C string; consequently tokenizing it yields a
first token, so the empty-token early return of handleInput cannot be taken.
(With a NUL byte in the line this fails: see the counterexample.) -/
theorem readInputLine_no_nul_spec (stream buf : List Char)
    (h : readInputLine stream = some buf) (hnul : ('\x00') ∉ buf) :
    buf.length ≤ INPUT_BUF_SIZE - 1 ∧ buf ≠ [] ∧ lastNotSpace buf = true ∧
      cString buf = buf ∧ tokenizeL (cString buf) ≠ [] := by
  unfold readInputLine at h
  by_cases hs : stream.isEmpty
  · rw [if_pos hs] at h
    exact Option.noConfusion h
  · rw [if_neg hs] at h
    simp only at h
    by_cases ht :
        (rtrim ((stream.takeWhile (fun c => decide (c ≠ '\n'))).take (INPUT_BUF_SIZE - 1))).isEmpty
    · rw [if_pos ht] at h
      exact Option.noConfusion h
    · rw [if_neg ht] at h
      have hbuf : buf =
          rtrim ((stream.takeWhile (fun c => decide (c ≠ '\n'))).take (INPUT_BUF_SIZE - 1)) :=
        (Option.some.inj h).symm
      have hne : buf ≠ [] := by
        rw [hbuf]
        intro hx
        rw [hx] at ht
        exact ht rfl
      have hlen : buf.length ≤ INPUT_BUF_SIZE - 1 := by
        rw [hbuf]
        unfold rtrim
        rw [List.length_reverse]
        calc ((((stream.takeWhile (fun c => decide (c ≠ '\n'))).take
                (INPUT_BUF_SIZE - 1)).reverse.dropWhile isspaceC)).length
            ≤ (((stream.takeWhile (fun c => decide (c ≠ '\n'))).take
                (INPUT_BUF_SIZE - 1)).reverse).length :=
              length_dropWhile_le_self isspaceC _
          _ = (((stream.takeWhile (fun c => decide (c ≠ '\n'))).take
                (INPUT_BUF_SIZE - 1))).length := List.length_reverse _
          _ ≤ INPUT_BUF_SIZE - 1 := List.length_take_le _ _
      have hlast : lastNotSpace buf = true := by
        rw [hbuf]
        exact rtrim_lastNotSpace _ (hbuf ▸ hne)
      have hcs : cString buf = buf := cString_of_no_nul buf hnul
      refine ⟨hlen, hne, hlast, hcs, ?_⟩
      rw [hcs]
      unfold tokenizeL
      refine tokenizeGo_ne_nil buf [] (Or.inr ?_)
      unfold lastNotSpace at hlast
      cases hl : buf.getLast? with
      | none =>
        rw [hl] at hlast
        exact Bool.noConfusion hlast
      | some c =>
        rw [hl] at hlast
        refine ⟨c, ?_, ?_⟩
        · have : c ∈ buf.reverse := by
            rw [← List.head?_reverse] at hl
            exact List.mem_of_mem_head? hl
          exact List.mem_reverse.mp this
        · intro hc
          subst hc
          simp [isspaceC] at hlast

/-- Counterexample for C10 as stated: the stream consisting of one NUL byte
is read successfully, yet the buffer's C string is empty, tokenizing yields
no first token, and the dispatch loop takes the empty-token early return
(only the echo of the empty string is printed). -/
theorem readInputLine_nul_counterexample :
    readInputLine [('\x00')] = some [('\x00')] ∧
    cString [('\x00')] = [] ∧
    tokenizeL (cString [('\x00')]) = [] ∧
    handleLine demoReg [('\x00')] = [Event.out ("> ")] := by
  refine ⟨by decide, by decide, by decide, ?_⟩
  rfl

/-- Witness for C10 amended: the stream holding the line hi there (with
trailing blanks and a newline) reads back as the trimmed buffer hi there,
which is NUL-free, short enough, ends in a non-blank and tokenizes. -/
theorem readInputLine_no_nul_spec_witness :
    (readInputLine (("hi there  \nrest").data) = some (("hi there").data) ∧
      ('\x00') ∉ (("hi there").data)) ∧
    ((("hi there").data).length ≤ INPUT_BUF_SIZE - 1 ∧ ("hi there").data ≠ [] ∧
      lastNotSpace (("hi there").data) = true ∧
      cString (("hi there").data) = ("hi there").data ∧
      tokenizeL (cString (("hi there").data)) ≠ []) :=
  ⟨⟨by decide, by decide⟩,
    readInputLine_no_nul_spec (("hi there  \nrest").data) (("hi there").data)
      (by decide) (by decide)⟩

end SerialConsole
